import Mathlib

/-!
Verification development for the voice-interview frontend and the
Voice Interview Session Orchestrator it talks to.

The definitions below are shallow embeddings of the JavaScript sources
(Chat_Agent/src/pages/InterviewPage.jsx, VoiceInterviewPage.jsx,
Analytics.jsx and the results page).  Components of the orchestrator
that exist only behind the HTTP/WebSocket boundary (the turn-taking
state machine, the audio ingestion buffer, the policy bridge) are
modelled from the design document and are marked as such in their
doc comments.
-/

namespace VoiceInterview

/-! ## formatTime (InterviewPage.jsx lines 74-78, VoiceInterviewPage.jsx lines 49-53) -/

/-- JavaScript String.prototype.padStart restricted to a one-character pad
string: pads on the left with the character until the target length is
reached; a string already long enough is returned unchanged. -/
def padStart (s : String) (targetLength : Nat) (c : Char) : String :=
  if targetLength ≤ s.length then s
  else String.mk (List.replicate (targetLength - s.length) c ++ s.data)

/-- formatTime from InterviewPage.jsx: minutes are Math.floor(seconds/60),
seconds are seconds % 60, both rendered in decimal and padStart(2, '0'),
joined by a colon. -/
def formatTime_InterviewPage (seconds : Nat) : String :=
  let mins := seconds / 60
  let secs := seconds % 60
  padStart (Nat.repr mins) 2 '0' ++ ":" ++ padStart (Nat.repr secs) 2 '0'

/-- formatTime from VoiceInterviewPage.jsx, textually the same computation as
the InterviewPage.jsx copy. -/
def formatTime_VoiceInterviewPage (seconds : Nat) : String :=
  let mins := seconds / 60
  let secs := seconds % 60
  padStart (Nat.repr mins) 2 '0' ++ ":" ++ padStart (Nat.repr secs) 2 '0'

/-- Decimal value of a field of digit characters, most significant first. -/
def digitsVal (l : List Char) : Nat :=
  l.foldl (fun a c => a * 10 + (c.toNat - 48)) 0

/-! ## Data model shared by Analytics.jsx and the results page -/

/-- Assessment record as consumed by Analytics.jsx and the results page. -/
structure Assessment where
  candidate_score_percent : Option Int
  strengths : Option (List String)
  weaknesses : Option (List String)
  improvement_areas : Option (List String)
deriving DecidableEq

/-- One stored interview session result; the assessment field may be absent. -/
structure SessionResult where
  assessment : Option Assessment
deriving DecidableEq

/-- Score extraction of Analytics.jsx line 54:
parseInt(r.assessment?.candidate_score_percent || 0) — a missing assessment,
a missing score field, or a zero score all yield 0. -/
def scoreOf (r : SessionResult) : Int :=
  (r.assessment.bind (fun a => a.candidate_score_percent)).getD 0

/-- JavaScript Math.round: round half toward positive infinity. -/
def jsRound (q : ℚ) : Int := ⌊q + 1/2⌋

/-- Entry of the topStrengths / commonWeaknesses arrays. -/
structure NamedCount where
  name : String
  count : Nat
deriving DecidableEq

/-- Stats state of Analytics.jsx (useState initializer, lines 11-18). -/
structure Stats where
  totalInterviews : Nat
  averageScore : Int
  highestScore : Int
  lowestScore : Int
  topStrengths : List NamedCount
  commonWeaknesses : List NamedCount
deriving DecidableEq

/-- All-zero initial stats value from the useState call. -/
def initialStats : Stats :=
  { totalInterviews := 0, averageScore := 0, highestScore := 0, lowestScore := 0,
    topStrengths := [], commonWeaknesses := [] }

/-- Insertion-ordered occurrence-count update:
map[k] = (map[k] || 0) + 1 on a JavaScript object used as a string-keyed map. -/
def bumpCount (m : List (String × Nat)) (k : String) : List (String × Nat) :=
  if m.any (fun p => p.1 == k) then
    m.map (fun p => if p.1 == k then (p.1, p.2 + 1) else p)
  else m ++ [(k, 1)]

/-- Object.entries(map).sort((a, b) => b[1] - a[1]).slice(0, 5).map(...):
stable sort by count descending, keep the first five. -/
def topCounts (m : List (String × Nat)) : List NamedCount :=
  ((m.mergeSort (fun a b => decide (b.2 ≤ a.2))).take 5).map
    (fun p => { name := p.1, count := p.2 })

/-- The strengths array of a result: (result.assessment || {}).strengths || []. -/
def strengthsOf (r : SessionResult) : List String :=
  (r.assessment.bind (fun a => a.strengths)).getD []

/-- The weaknesses array of a result:
assessment.weaknesses || assessment.improvement_areas || [] — an existing
weaknesses property wins even when empty, because arrays are truthy. -/
def weaknessesOf (r : SessionResult) : List String :=
  (r.assessment.bind (fun a => a.weaknesses.orElse (fun _ => a.improvement_areas))).getD []

/-- calculateStats from Analytics.jsx: returns the stats value that setStats
receives, or the unchanged input stats when the data list is empty (the early
return keeps the previous state). -/
def calculateStats (data : List SessionResult) (stats : Stats) : Stats :=
  if data.isEmpty then stats
  else
    let scores := data.map scoreOf
    let totalInterviews := data.length
    let averageScore := jsRound ((scores.foldl (· + ·) 0 : Int) / (totalInterviews : ℚ))
    let highestScore := match scores with | [] => 0 | x :: xs => xs.foldl max x
    let lowestScore := match scores with | [] => 0 | x :: xs => xs.foldl min x
    let strengthsMap := data.foldl (fun m r => (strengthsOf r).foldl bumpCount m) []
    let weaknessesMap := data.foldl (fun m r => (weaknessesOf r).foldl bumpCount m) []
    { totalInterviews := totalInterviews
      averageScore := averageScore
      highestScore := highestScore
      lowestScore := lowestScore
      topStrengths := topCounts strengthsMap
      commonWeaknesses := topCounts weaknessesMap }

/-- getScoreLabel from the results page. -/
def getScoreLabel (score : Int) : String :=
  if score ≥ 80 then "Excellent"
  else if score ≥ 60 then "Good"
  else if score ≥ 40 then "Fair"
  else "Needs Improvement"

/-- Score displayed by the results page (part_001 lines 82-83):
const assessment = result.assessment || {};
const score = assessment.candidate_score_percent || 0. -/
def resultsPageScore (r : SessionResult) : Int :=
  (r.assessment.bind (fun a => a.candidate_score_percent)).getD 0

/-! ## InterviewPage.jsx client state and handlers -/

/-- MIN_RECORDING_DURATION from InterviewPage.jsx line 97 (seconds). -/
def MIN_RECORDING_DURATION : Nat := 4

/-- One chat message of the messages state array. -/
structure ChatMsg where
  sender : String
  text : String
deriving DecidableEq

/-- Client-side state of InterviewPage.jsx.  The audio blob produced by the
useAudioRecorder hook is modelled by the duration in seconds of the recording
it holds.  The transcripts and answers fields record the calls made to the
transcription endpoint and to submitAnswer, so that trace properties about
what the client ever sent can be stated. -/
structure ClientState where
  messages : List ChatMsg
  input : String
  currentQuestionNumber : Nat
  interviewEnded : Bool
  loading : Bool
  isRecording : Bool
  recordingDuration : Nat
  audioBlob : Option Nat
  isTranscribing : Bool
  transcripts : List (Nat × String)
  answers : List String
deriving DecidableEq

/-- State right after initialization: first question received, question
number set to 1, nothing recorded yet. -/
def initialClientState : ClientState :=
  { messages := [], input := "", currentQuestionNumber := 1,
    interviewEnded := false, loading := false, isRecording := false,
    recordingDuration := 0, audioBlob := none, isTranscribing := false,
    transcripts := [], answers := [] }

/-- Result of a stop-recording attempt. -/
inductive StopOutcome where
  | answerTooShort
  | stopped
deriving DecidableEq

/-- handleStopRecording from InterviewPage.jsx lines 217-223: a recording
shorter than MIN_RECORDING_DURATION is rejected (alert, early return, the
recording keeps running); otherwise stopRecording() ends the recording and
the hook publishes the audio blob. -/
def handleStopRecording (s : ClientState) : StopOutcome × ClientState :=
  if s.recordingDuration < MIN_RECORDING_DURATION then
    (.answerTooShort, s)
  else
    (.stopped,
     { s with
       isRecording := false,
       audioBlob := some s.recordingDuration })

/-- Outcome of the submitAnswer call awaited inside handleSend. -/
inductive SubmitResponse where
  | next (question : String) (nextQuestionNumber : Nat)
  | complete (closingMessage : String)
  | failed
deriving DecidableEq

/-- handleSend from InterviewPage.jsx lines 225-275, as a function of the
state and of the submitAnswer outcome.  The guard on line 226 returns
immediately when the input is blank, a send is in flight, or the interview
has ended. -/
def handleSend (s : ClientState) (resp : SubmitResponse) : ClientState :=
  if s.input.trim == "" || s.loading || s.interviewEnded then s
  else
    let userAnswer := s.input.trim
    let s1 :=
      { s with
        input := "",
        messages := s.messages ++ [({ sender := "user", text := userAnswer } : ChatMsg)],
        answers := s.answers ++ [userAnswer] }
    match resp with
    | .next q n =>
        { s1 with
          messages := s1.messages ++ [({ sender := "ai", text := q } : ChatMsg)],
          currentQuestionNumber := n }
    | .complete m =>
        { s1 with
          messages := s1.messages ++ [({ sender := "ai", text := m } : ChatMsg)],
          interviewEnded := true }
    | .failed =>
        { s1 with
          messages := s1.messages ++
            [({ sender := "ai",
                text := "Sorry, there was an error processing your answer. Please try again." } :
               ChatMsg)] }

/-- Events the InterviewPage client reacts to. -/
inductive ClientEvent where
  | startRec
  | tick
  | stopRec
  | transcribed (text : String)
  | send (resp : SubmitResponse)

/-- One client step.  startRec follows the record button (hidden while
recording, disabled while transcribing or loading, absent once the interview
ended) plus the duration-reset effect of lines 198-203; tick is that timer
firing; stopRec is the stop button (only rendered while recording);
transcribed is the effect of lines 192-196 feeding a successful transcription
into the input and resetting the recorder; send is handleSend. -/
def clientStep (s : ClientState) (e : ClientEvent) : ClientState :=
  match e with
  | .startRec =>
      if s.isRecording || s.isTranscribing || s.loading || s.interviewEnded then s
      else
        { s with
          isRecording := true,
          recordingDuration := 0 }
  | .tick =>
      if s.isRecording then { s with recordingDuration := s.recordingDuration + 1 } else s
  | .stopRec =>
      if s.isRecording then (handleStopRecording s).2 else s
  | .transcribed t =>
      match s.audioBlob with
      | some d =>
          if s.isRecording then s
          else
            { s with
              input := t,
              audioBlob := none,
              isTranscribing := false,
              transcripts := s.transcripts ++ [(d, t)] }
      | none => s
  | .send r => handleSend s r

/-- Run the client from its post-initialization state over a list of events. -/
def runClient (evs : List ClientEvent) : ClientState :=
  evs.foldl clientStep initialClientState

/-- Recording-length invariant: any pending audio blob, and every transcript
ever requested, comes from a recording of at least MIN_RECORDING_DURATION
seconds. -/
def durationInv (s : ClientState) : Prop :=
  (∀ d, s.audioBlob = some d → MIN_RECORDING_DURATION ≤ d) ∧
  (∀ p ∈ s.transcripts, MIN_RECORDING_DURATION ≤ p.1)

/-- Client two seconds into a recording, used to instantiate the
stop-rejection law. -/
def shortRecordingState : ClientState :=
  { initialClientState with
    isRecording := true,
    recordingDuration := 2 }

/-- Client whose interview has ended with a pending typed input, used to
instantiate the discard law. -/
def endedClientState : ClientState :=
  { initialClientState with
    interviewEnded := true,
    input := "late answer" }

/-! ## Turn-Taking State Machine and Policy Bridge

The backend orchestrator is reached by the frontend only over HTTP and
WebSocket; its sources are not part of the frontend tree.  The definitions
in this section are therefore modelled from the design document (sections
4.3, 4.4 and 7): states and transitions follow the transition table, the
policy bridge follows the one-retry-then-fallback rule, and payload details
irrelevant to the stated properties (texts of answers, evaluations) are
elided. -/

/-- Modelled from the spec: the states of the Turn-Taking State Machine,
section 4.3. -/
inductive SessState where
  | idle
  | priming
  | askingQuestion
  | listeningForAnswer
  | evaluatingAnswer
  | closing
  | completed
  | failed
deriving DecidableEq

/-- Modelled from the spec: outcome of one policy-engine call attempt
(section 4.4): a question, a timeout, or a collaborator error. -/
inductive PolicyOutcome where
  | ok (question : String)
  | timeout
  | err
deriving DecidableEq

/-- Modelled from the spec: the fixed pool of static scripted fallback
questions of section 4.4. -/
def fallbackPool : List String :=
  ["Tell me about a recent project you worked on.",
   "What are your main technical strengths?",
   "Describe a challenge you faced and how you solved it.",
   "Why are you interested in this role?",
   "Where do you see yourself growing next?"]

/-- Modelled from the spec: the scripted question drawn from the pool, keyed
by the remaining questionIndex slots. -/
def fallbackQuestion (remainingSlots : Nat) : String :=
  fallbackPool.getD (remainingSlots % fallbackPool.length) ""

/-- Modelled from the spec: nextQuestion through the Policy Bridge — the
first attempt is used if it succeeds; otherwise exactly one retry (after
backoff) is consulted; if that also fails the scripted fallback question is
returned, so the call as a whole always produces a question. -/
def nextQuestionResult (firstTry retry : PolicyOutcome) (remainingSlots : Nat) : String :=
  match firstTry with
  | .ok q => q
  | _ =>
    match retry with
    | .ok q => q
    | _ => fallbackQuestion remainingSlots

/-- Modelled from the spec: per-session state owned by the state machine. -/
structure SpecSession where
  state : SessState
  questionIndex : Nat
  maxQuestions : Nat
  minAnswerSeconds : Nat
deriving DecidableEq

/-- Outbound events emitted to the connection (section 6). -/
inductive OutEvent where
  | question (idx : Nat) (text : String)
  | assessment
  | error
deriving DecidableEq

/-- Inbound events serialized into the session actor inbox. -/
inductive SessEvent where
  | startPriming
  | contextLoaded (firstQuestion : String)
  | contextError
  | playbackAck
  | finalAnswer (durationSeconds : Nat)
  | endCommand
  | evaluated (firstTry retry : PolicyOutcome)
  | finalized
  | finalizeError
deriving DecidableEq

/-- Modelled from the spec: one transition of the Turn-Taking State Machine
(transition table of section 4.3).  An event inapplicable to the current
state is discarded: the state is unchanged and nothing is emitted.  An
answer shorter than minAnswerSeconds keeps the session in
listeningForAnswer (AnswerTooShort, same-turn retry).  After evaluation the
session asks question questionIndex+1 while under maxQuestions and closes
otherwise; question generation never fails thanks to the fallback. -/
def specStep (s : SpecSession) (e : SessEvent) : SpecSession × List OutEvent :=
  match s.state, e with
  | .idle, .startPriming => ({ s with state := .priming }, [])
  | .priming, .contextLoaded q =>
      ({ s with state := .askingQuestion, questionIndex := 1 }, [.question 1 q])
  | .priming, .contextError => ({ s with state := .failed }, [.error])
  | .askingQuestion, .playbackAck => ({ s with state := .listeningForAnswer }, [])
  | .listeningForAnswer, .finalAnswer d =>
      if d < s.minAnswerSeconds then (s, [])
      else ({ s with state := .evaluatingAnswer }, [])
  | .listeningForAnswer, .endCommand => ({ s with state := .closing }, [])
  | .evaluatingAnswer, .evaluated o1 o2 =>
      if s.questionIndex < s.maxQuestions then
        ({ s with state := .askingQuestion, questionIndex := s.questionIndex + 1 },
         [.question (s.questionIndex + 1)
            (nextQuestionResult o1 o2 (s.maxQuestions - s.questionIndex))])
      else ({ s with state := .closing }, [])
  | .closing, .finalized => ({ s with state := .completed }, [.assessment])
  | .closing, .finalizeError => ({ s with state := .failed }, [.error])
  | _, _ => (s, [])

/-- Run the machine over an inbox, accumulating the emitted events. -/
def specRun (s : SpecSession) (evs : List SessEvent) : SpecSession × List OutEvent :=
  evs.foldl (fun acc e =>
    ((specStep acc.1 e).1, acc.2 ++ (specStep acc.1 e).2)) (s, [])

/-- Fresh session as created by the registry. -/
def initSession (maxQ minA : Nat) : SpecSession :=
  { state := .idle, questionIndex := 0, maxQuestions := maxQ, minAnswerSeconds := minA }

/-- Indices carried by the emitted question events, in emission order. -/
def questionIndices (out : List OutEvent) : List Nat :=
  out.filterMap (fun o =>
    match o with
    | .question i _ => some i
    | _ => none)

/-- Whether an outbound event is one of the two terminal events. -/
def isTerminalEvent (o : OutEvent) : Bool :=
  match o with
  | .assessment => true
  | .error => true
  | _ => false

/-- Number of assessment or error events in a trace. -/
def terminalEventCount (out : List OutEvent) : Nat :=
  (out.filter isTerminalEvent).length

/-- Whether a session state is terminal. -/
def isTerminalState (st : SessState) : Prop :=
  st = .completed ∨ st = .failed

/-- Machine invariant tying a reachable session to its emitted trace. -/
def machineInv (s : SpecSession) (out : List OutEvent) : Prop :=
  questionIndices out = List.range' 1 s.questionIndex ∧
  ((s.state = .idle ∨ s.state = .priming) → s.questionIndex = 0) ∧
  (1 ≤ s.maxQuestions → s.questionIndex ≤ s.maxQuestions) ∧
  (isTerminalState s.state → terminalEventCount out = 1) ∧
  (¬ isTerminalState s.state → terminalEventCount out = 0)

/-- Session sitting in EvaluatingAnswer with one question asked out of three,
used to instantiate the transition laws. -/
def evalSession : SpecSession :=
  { state := .evaluatingAnswer, questionIndex := 1, maxQuestions := 3,
    minAnswerSeconds := 4 }

/-- Completed session used to instantiate the discard law. -/
def doneSession : SpecSession :=
  { state := .completed, questionIndex := 3, maxQuestions := 3, minAnswerSeconds := 4 }

/-! ## Audio Ingestion Buffer -/

/-- Modelled from the spec: per-session state of the Audio Ingestion Buffer
(section 4.1) — the expected next sequence number and the frames already
forwarded, in order, to the transcription stream. -/
structure IngestState where
  expectedSeq : Nat
  forwarded : List (Nat × List Nat)
deriving DecidableEq

/-- Outcome of one submit call. -/
inductive SubmitOutcome where
  | accepted
  | outOfOrder
deriving DecidableEq

/-- Modelled from the spec: submit(sessionId, seq, bytes) on one session's
buffer — an in-order frame is forwarded at once and bumps the expected
sequence number; any other seq fails with OutOfOrder (the caller must resend
in order; there is no reordering buffer) and mutates nothing. -/
def submit (st : IngestState) (seq : Nat) (bytes : List Nat) :
    SubmitOutcome × IngestState :=
  if seq = st.expectedSeq then
    (.accepted,
     { expectedSeq := st.expectedSeq + 1,
       forwarded := st.forwarded ++ [(seq, bytes)] })
  else (.outOfOrder, st)

/-! ## Decimal printing facts for formatTime -/

theorem digitsVal_cons (a : Nat) (c : Char) (l : List Char) :
    List.foldl (fun a c => a * 10 + (c.toNat - 48)) a (c :: l) =
      List.foldl (fun a c => a * 10 + (c.toNat - 48)) (a * 10 + (c.toNat - 48)) l := rfl

theorem digitChar_val (d : Nat) (h : d < 10) : (Nat.digitChar d).toNat - 48 = d := by
  interval_cases d <;> decide

theorem toDigitsCore_val (fuel : Nat) : ∀ (n : Nat) (ds : List Char), n < fuel →
    List.foldl (fun a c => a * 10 + (c.toNat - 48)) 0 (Nat.toDigitsCore 10 fuel n ds) =
      List.foldl (fun a c => a * 10 + (c.toNat - 48)) n ds := by
  induction fuel with
  | zero => intro n ds h; omega
  | succ fuel ih =>
    intro n ds h
    show List.foldl _ 0 (Nat.toDigitsCore 10 (fuel + 1) n ds) = _
    rw [Nat.toDigitsCore]
    by_cases hz : n / 10 = 0
    · have hn : n < 10 := by
        rcases Nat.lt_or_ge n 10 with h10 | h10
        · exact h10
        · exact absurd hz (by omega)
      rw [if_pos hz, digitsVal_cons, digitChar_val (n % 10) (Nat.mod_lt n (by omega))]
      have : 0 * 10 + n % 10 = n := by omega
      rw [this]
    · have h10 : 10 ≤ n := by
        rcases Nat.lt_or_ge n 10 with h10 | h10
        · exact absurd (Nat.div_eq_of_lt h10) hz
        · exact h10
      have hlt : n / 10 < fuel := by
        have : n / 10 < n := Nat.div_lt_self (by omega) (by omega)
        omega
      rw [if_neg hz, ih (n / 10) _ hlt, digitsVal_cons,
        digitChar_val (n % 10) (Nat.mod_lt n (by omega))]
      have : n / 10 * 10 + n % 10 = n := by omega
      rw [this]

/-- The decimal printer Nat.repr round-trips through the decimal reader. -/
theorem digitsVal_repr (n : Nat) : digitsVal (Nat.repr n).data = n := by
  show List.foldl _ 0 (List.asString (Nat.toDigitsCore 10 (n + 1) n [])).data = n
  have : (List.asString (Nat.toDigitsCore 10 (n + 1) n [])).data =
      Nat.toDigitsCore 10 (n + 1) n [] := rfl
  rw [this, toDigitsCore_val (n + 1) n [] (Nat.lt_succ_self n)]
  rfl

theorem digitsVal_replicate_zero_append (k : Nat) (l : List Char) :
    digitsVal (List.replicate k '0' ++ l) = digitsVal l := by
  induction k with
  | zero => rfl
  | succ k ih =>
    show digitsVal ('0' :: (List.replicate k '0' ++ l)) = digitsVal l
    unfold digitsVal at *
    rw [digitsVal_cons]
    simpa using ih

theorem digitsVal_padStart_repr (n t : Nat) :
    digitsVal (padStart (Nat.repr n) t '0').data = n := by
  unfold padStart
  by_cases h : t ≤ (Nat.repr n).length
  · rw [if_pos h]; exact digitsVal_repr n
  · rw [if_neg h]
    show digitsVal (List.replicate (t - (Nat.repr n).length) '0' ++ (Nat.repr n).data) = n
    rw [digitsVal_replicate_zero_append]
    exact digitsVal_repr n

theorem padStart_length (s : String) (t : Nat) (c : Char) :
    (padStart s t c).length = max t s.length := by
  have hl : s.length = s.data.length := rfl
  unfold padStart
  by_cases h : t ≤ s.length
  · rw [if_pos h]; omega
  · rw [if_neg h]
    show (List.replicate (t - s.length) c ++ s.data).length = max t s.length
    rw [List.length_append, List.length_replicate]
    omega

/-- C8: for every non-negative integer number of seconds s, formatTime
returns a string MM:SS; both fields are zero-padded to at least two digits,
the seconds field has exactly two digits and decodes to s mod 60 (hence is
between 00 and 59), the minutes field decodes to floor(s/60), and the two
interview pages' implementations agree on every input. -/
theorem c8_formatTime (s : Nat) :
    formatTime_InterviewPage s = formatTime_VoiceInterviewPage s ∧
    ∃ mm ss : String,
      formatTime_InterviewPage s = mm ++ ":" ++ ss ∧
      2 ≤ mm.length ∧ ss.length = 2 ∧
      digitsVal mm.data = s / 60 ∧ digitsVal ss.data = s % 60 ∧ s % 60 < 60 := by
  refine ⟨rfl, padStart (Nat.repr (s / 60)) 2 '0', padStart (Nat.repr (s % 60)) 2 '0',
    rfl, ?_, ?_, digitsVal_padStart_repr _ _, digitsVal_padStart_repr _ _,
    Nat.mod_lt s (by omega)⟩
  · rw [padStart_length]; omega
  · have hlen : (Nat.repr (s % 60)).length ≤ 2 := by
      apply Nat.repr_length (s % 60) 2 (by omega)
      have : s % 60 < 60 := Nat.mod_lt s (by omega)
      omega
    rw [padStart_length]; omega

/-! ## Bounds for calculateStats -/

theorem foldl_min_le_init (l : List Int) (a : Int) : l.foldl min a ≤ a := by
  induction l generalizing a with
  | nil => simp [List.foldl]
  | cons x xs ih =>
    show xs.foldl min (min a x) ≤ a
    exact le_trans (ih (min a x)) (min_le_left a x)

theorem foldl_min_le_mem (l : List Int) (a y : Int) (hy : y ∈ l) : l.foldl min a ≤ y := by
  induction l generalizing a with
  | nil => cases hy
  | cons x xs ih =>
    show xs.foldl min (min a x) ≤ y
    rcases List.mem_cons.mp hy with h | h
    · subst h; exact le_trans (foldl_min_le_init xs (min a y)) (min_le_right a y)
    · exact ih (min a x) h

theorem le_foldl_max_init (l : List Int) (a : Int) : a ≤ l.foldl max a := by
  induction l generalizing a with
  | nil => simp [List.foldl]
  | cons x xs ih =>
    show a ≤ xs.foldl max (max a x)
    exact le_trans (le_max_left a x) (ih (max a x))

theorem mem_le_foldl_max (l : List Int) (a y : Int) (hy : y ∈ l) : y ≤ l.foldl max a := by
  induction l generalizing a with
  | nil => cases hy
  | cons x xs ih =>
    show y ≤ xs.foldl max (max a x)
    rcases List.mem_cons.mp hy with h | h
    · subst h; exact le_trans (le_max_right a y) (le_foldl_max_init xs (max a y))
    · exact ih (max a x) h

theorem le_foldl_add (l : List Int) (a lo : Int) (h : ∀ y ∈ l, lo ≤ y) :
    a + (l.length : Int) * lo ≤ l.foldl (· + ·) a := by
  induction l generalizing a with
  | nil => simp [List.foldl]
  | cons x xs ih =>
    show a + ((xs.length + 1 : Nat) : Int) * lo ≤ xs.foldl (· + ·) (a + x)
    have hx : lo ≤ x := h x (List.mem_cons_self x xs)
    have hrec := ih (a + x) (fun y hy => h y (List.mem_cons_of_mem x hy))
    have hcast : ((xs.length + 1 : Nat) : Int) * lo = (xs.length : Int) * lo + lo := by
      push_cast; ring
    linarith

theorem foldl_add_le (l : List Int) (a hi : Int) (h : ∀ y ∈ l, y ≤ hi) :
    l.foldl (· + ·) a ≤ a + (l.length : Int) * hi := by
  induction l generalizing a with
  | nil => simp [List.foldl]
  | cons x xs ih =>
    show xs.foldl (· + ·) (a + x) ≤ a + ((xs.length + 1 : Nat) : Int) * hi
    have hx : x ≤ hi := h x (List.mem_cons_self x xs)
    have hrec := ih (a + x) (fun y hy => h y (List.mem_cons_of_mem x hy))
    have hcast : ((xs.length + 1 : Nat) : Int) * hi = (xs.length : Int) * hi + hi := by
      push_cast; ring
    linarith

theorem jsRound_bounds (sum lo hi : Int) (n : Nat) (hn : 0 < n)
    (hlo : (n : Int) * lo ≤ sum) (hhi : sum ≤ (n : Int) * hi) :
    lo ≤ jsRound ((sum : ℚ) / (n : ℚ)) ∧ jsRound ((sum : ℚ) / (n : ℚ)) ≤ hi := by
  have hnq : (0 : ℚ) < (n : ℚ) := by exact_mod_cast hn
  have h1 : (lo : ℚ) ≤ (sum : ℚ) / (n : ℚ) := by
    rw [le_div_iff₀ hnq, mul_comm]
    exact_mod_cast hlo
  have h2 : (sum : ℚ) / (n : ℚ) ≤ (hi : ℚ) := by
    rw [div_le_iff₀ hnq, mul_comm]
    exact_mod_cast hhi
  constructor
  · exact Int.le_floor.mpr (by linarith)
  · have hlt : ((sum : ℚ) / (n : ℚ) + 1 / 2) < ((hi + 1 : Int) : ℚ) := by
      push_cast; linarith
    exact Int.lt_add_one_iff.mp (Int.floor_lt.mpr hlt)

theorem calculateStats_cons (r : SessionResult) (rest : List SessionResult) (stats : Stats) :
    (calculateStats (r :: rest) stats).totalInterviews = (r :: rest).length ∧
    (calculateStats (r :: rest) stats).averageScore =
      jsRound (((((r :: rest).map scoreOf).foldl (· + ·) 0 : Int) : ℚ) /
        (((r :: rest).length : Nat) : ℚ)) ∧
    (calculateStats (r :: rest) stats).highestScore =
      (rest.map scoreOf).foldl max (scoreOf r) ∧
    (calculateStats (r :: rest) stats).lowestScore =
      (rest.map scoreOf).foldl min (scoreOf r) :=
  ⟨rfl, rfl, rfl, rfl⟩

/-- C9: for every non-empty list of interview results, calculateStats sets
totalInterviews to the list's length and its integer scores satisfy
lowestScore ≤ averageScore ≤ highestScore; for an empty list it returns the
stats unchanged, so they stay at the all-zero initial values. -/
theorem c9_calculateStats :
    (∀ stats, calculateStats [] stats = stats) ∧
    calculateStats [] initialStats = initialStats ∧
    (∀ (data : List SessionResult) (stats : Stats), data ≠ [] →
      (calculateStats data stats).totalInterviews = data.length ∧
      (calculateStats data stats).lowestScore ≤ (calculateStats data stats).averageScore ∧
      (calculateStats data stats).averageScore ≤ (calculateStats data stats).highestScore) := by
  refine ⟨fun stats => rfl, rfl, ?_⟩
  intro data stats hne
  obtain ⟨r, rest, rfl⟩ := List.exists_cons_of_ne_nil hne
  obtain ⟨ht, hav, hhi, hlo⟩ := calculateStats_cons r rest stats
  refine ⟨ht, ?_, ?_⟩
  · rw [hav, hlo]
    have hb := jsRound_bounds (((r :: rest).map scoreOf).foldl (· + ·) 0)
      ((rest.map scoreOf).foldl min (scoreOf r))
      ((rest.map scoreOf).foldl max (scoreOf r))
      (r :: rest).length (by simp)
      ?_ ?_
    · exact hb.1
    · have hmem : ∀ y ∈ (r :: rest).map scoreOf,
          (rest.map scoreOf).foldl min (scoreOf r) ≤ y := by
        intro y hy
        rw [List.map_cons] at hy
        rcases List.mem_cons.mp hy with h | h
        · subst h; exact foldl_min_le_init _ _
        · exact foldl_min_le_mem _ _ _ h
      have := le_foldl_add ((r :: rest).map scoreOf) 0
        ((rest.map scoreOf).foldl min (scoreOf r)) hmem
      simpa using this
    · have hmem : ∀ y ∈ (r :: rest).map scoreOf,
          y ≤ (rest.map scoreOf).foldl max (scoreOf r) := by
        intro y hy
        rw [List.map_cons] at hy
        rcases List.mem_cons.mp hy with h | h
        · subst h; exact le_foldl_max_init _ _
        · exact mem_le_foldl_max _ _ _ h
      have := foldl_add_le ((r :: rest).map scoreOf) 0
        ((rest.map scoreOf).foldl max (scoreOf r)) hmem
      simpa using this
  · rw [hav, hhi]
    have hb := jsRound_bounds (((r :: rest).map scoreOf).foldl (· + ·) 0)
      ((rest.map scoreOf).foldl min (scoreOf r))
      ((rest.map scoreOf).foldl max (scoreOf r))
      (r :: rest).length (by simp)
      ?_ ?_
    · exact hb.2
    · have hmem : ∀ y ∈ (r :: rest).map scoreOf,
          (rest.map scoreOf).foldl min (scoreOf r) ≤ y := by
        intro y hy
        rw [List.map_cons] at hy
        rcases List.mem_cons.mp hy with h | h
        · subst h; exact foldl_min_le_init _ _
        · exact foldl_min_le_mem _ _ _ h
      have := le_foldl_add ((r :: rest).map scoreOf) 0
        ((rest.map scoreOf).foldl min (scoreOf r)) hmem
      simpa using this
    · have hmem : ∀ y ∈ (r :: rest).map scoreOf,
          y ≤ (rest.map scoreOf).foldl max (scoreOf r) := by
        intro y hy
        rw [List.map_cons] at hy
        rcases List.mem_cons.mp hy with h | h
        · subst h; exact le_foldl_max_init _ _
        · exact mem_le_foldl_max _ _ _ h
      have := foldl_add_le ((r :: rest).map scoreOf) 0
        ((rest.map scoreOf).foldl max (scoreOf r)) hmem
      simpa using this

/-- Witness for C9 at a concrete two-element result list with scores 70 and 80. -/
theorem c9_calculateStats_witness :
    ([⟨some ⟨some 70, none, none, none⟩⟩, ⟨some ⟨some 80, none, none, none⟩⟩] ≠
      ([] : List SessionResult)) ∧
    (calculateStats [⟨some ⟨some 70, none, none, none⟩⟩,
        ⟨some ⟨some 80, none, none, none⟩⟩] initialStats).totalInterviews =
      ([⟨some ⟨some 70, none, none, none⟩⟩, ⟨some ⟨some 80, none, none, none⟩⟩] :
        List SessionResult).length ∧
    (calculateStats [⟨some ⟨some 70, none, none, none⟩⟩,
        ⟨some ⟨some 80, none, none, none⟩⟩] initialStats).lowestScore ≤
      (calculateStats [⟨some ⟨some 70, none, none, none⟩⟩,
        ⟨some ⟨some 80, none, none, none⟩⟩] initialStats).averageScore ∧
    (calculateStats [⟨some ⟨some 70, none, none, none⟩⟩,
        ⟨some ⟨some 80, none, none, none⟩⟩] initialStats).averageScore ≤
      (calculateStats [⟨some ⟨some 70, none, none, none⟩⟩,
        ⟨some ⟨some 80, none, none, none⟩⟩] initialStats).highestScore := by
  have h := c9_calculateStats.2.2
    [⟨some ⟨some 70, none, none, none⟩⟩, ⟨some ⟨some 80, none, none, none⟩⟩]
    initialStats (by simp)
  exact ⟨by simp, h.1, h.2.1, h.2.2⟩

/-- C10: a session result lacking an assessment or a score renders score 0
labelled Needs Improvement, and getScoreLabel is total, returning exactly one
of the four labels partitioned at 80, 60 and 40. -/
theorem c10_getScoreLabel :
    (∀ r : SessionResult,
      (r.assessment = none ∨ ∃ a, r.assessment = some a ∧ a.candidate_score_percent = none) →
      resultsPageScore r = 0 ∧ getScoreLabel (resultsPageScore r) = "Needs Improvement") ∧
    (∀ s : Int,
      (80 ≤ s ∧ getScoreLabel s = "Excellent") ∨
      (60 ≤ s ∧ s < 80 ∧ getScoreLabel s = "Good") ∨
      (40 ≤ s ∧ s < 60 ∧ getScoreLabel s = "Fair") ∨
      (s < 40 ∧ getScoreLabel s = "Needs Improvement")) := by
  constructor
  · rintro r (h | ⟨a, ha, hs⟩)
    · constructor
      · simp [resultsPageScore, h]
      · simp [resultsPageScore, h]; decide
    · constructor
      · simp [resultsPageScore, ha, hs]
      · simp [resultsPageScore, ha, hs]; decide
  · intro s
    by_cases h80 : s ≥ 80
    · exact Or.inl ⟨h80, by unfold getScoreLabel; rw [if_pos h80]⟩
    · by_cases h60 : s ≥ 60
      · refine Or.inr (Or.inl ⟨h60, by omega, ?_⟩)
        unfold getScoreLabel
        rw [if_neg h80, if_pos h60]
      · by_cases h40 : s ≥ 40
        · refine Or.inr (Or.inr (Or.inl ⟨h40, by omega, ?_⟩))
          unfold getScoreLabel
          rw [if_neg h80, if_neg h60, if_pos h40]
        · refine Or.inr (Or.inr (Or.inr ⟨by omega, ?_⟩))
          unfold getScoreLabel
          rw [if_neg h80, if_neg h60, if_neg h40]

/-- Witness for C10 at a result record that has no assessment at all. -/
theorem c10_getScoreLabel_witness :
    resultsPageScore { assessment := none } = 0 ∧
    getScoreLabel (resultsPageScore { assessment := none }) = "Needs Improvement" :=
  c10_getScoreLabel.1 { assessment := none } (Or.inl rfl)

/-! ## Client trace properties -/

theorem durationInv_step (s : ClientState) (e : ClientEvent)
    (h : durationInv s) : durationInv (clientStep s e) := by
  obtain ⟨hblob, htr⟩ := h
  cases e with
  | startRec =>
    by_cases hc : (s.isRecording || s.isTranscribing || s.loading || s.interviewEnded) = true
    · simpa [clientStep, hc] using ⟨hblob, htr⟩
    · simp only [clientStep, Bool.not_eq_true] at hc ⊢
      rw [hc]
      exact ⟨hblob, htr⟩
  | tick =>
    by_cases hc : s.isRecording = true
    · simp only [clientStep, hc, if_pos]
      exact ⟨hblob, htr⟩
    · simp only [clientStep]
      rw [if_neg hc]
      exact ⟨hblob, htr⟩
  | stopRec =>
    by_cases hc : s.isRecording = true
    · simp only [clientStep]
      rw [if_pos hc]
      unfold handleStopRecording
      by_cases hd : s.recordingDuration < MIN_RECORDING_DURATION
      · rw [if_pos hd]; exact ⟨hblob, htr⟩
      · rw [if_neg hd]
        refine ⟨?_, htr⟩
        intro d hdd
        simp only at hdd
        cases hdd
        omega
    · simp only [clientStep]
      rw [if_neg hc]
      exact ⟨hblob, htr⟩
  | transcribed t =>
    simp only [clientStep]
    cases hb : s.audioBlob with
    | none => exact ⟨hblob, htr⟩
    | some d =>
      dsimp only
      by_cases hc : s.isRecording = true
      · rw [if_pos hc]; exact ⟨hblob, htr⟩
      · rw [if_neg hc]
        refine ⟨fun d2 hdd => Option.noConfusion hdd, ?_⟩
        intro p hp
        rcases List.mem_append.mp hp with hp | hp
        · exact htr p hp
        · rcases List.mem_singleton.mp hp with rfl
          exact hblob d hb
  | send r =>
    simp only [clientStep]
    unfold handleSend
    by_cases hc : (s.input.trim == "" || s.loading || s.interviewEnded) = true
    · rw [if_pos hc]; exact ⟨hblob, htr⟩
    · rw [if_neg hc]
      cases r with
      | next q n => exact ⟨hblob, htr⟩
      | complete m => exact ⟨hblob, htr⟩
      | failed => exact ⟨hblob, htr⟩

theorem durationInv_foldl (evs : List ClientEvent) :
    ∀ s : ClientState, durationInv s → durationInv (evs.foldl clientStep s) := by
  induction evs with
  | nil => intro s hs; exact hs
  | cons e rest ih => intro s hs; exact ih _ (durationInv_step s e hs)

theorem durationInv_run (evs : List ClientEvent) : durationInv (runClient evs) := by
  apply durationInv_foldl
  constructor
  · intro d hd; cases hd
  · intro p hp; cases hp

/-- C1: a stop attempt with elapsed recording time under minAnswerSeconds
(MIN_RECORDING_DURATION = 4) is rejected as too short, leaves the whole
client state (recording, turn, questionIndex) unchanged so the same turn is
retried, and no recording shorter than the minimum is ever transcribed — so
a short recording never becomes a finalized answerText. -/
theorem c1_answerTooShort :
    (∀ s : ClientState, s.recordingDuration < MIN_RECORDING_DURATION →
      handleStopRecording s = (.answerTooShort, s)) ∧
    (∀ evs : List ClientEvent, ∀ p ∈ (runClient evs).transcripts,
      MIN_RECORDING_DURATION ≤ p.1) := by
  constructor
  · intro s h
    unfold handleStopRecording
    rw [if_pos h]
  · intro evs p hp
    exact (durationInv_run evs).2 p hp

/-- Witness for C1: stopping two seconds into a recording is rejected and
changes nothing. -/
theorem c1_answerTooShort_witness :
    shortRecordingState.recordingDuration < MIN_RECORDING_DURATION ∧
    handleStopRecording shortRecordingState = (.answerTooShort, shortRecordingState) :=
  ⟨by decide, c1_answerTooShort.1 _ (by decide)⟩

/-! ## Machine invariants and claim theorems -/

theorem maxQuestions_step (s : SpecSession) (e : SessEvent) :
    (specStep s e).1.maxQuestions = s.maxQuestions := by
  obtain ⟨st, qi, maxQ, minA⟩ := s
  cases st <;> cases e <;>
    simp only [specStep] <;>
    split <;> rfl

theorem questionIndices_append (a b : List OutEvent) :
    questionIndices (a ++ b) = questionIndices a ++ questionIndices b :=
  List.filterMap_append a b _

theorem terminalEventCount_append (a b : List OutEvent) :
    terminalEventCount (a ++ b) = terminalEventCount a + terminalEventCount b := by
  unfold terminalEventCount
  rw [List.filter_append, List.length_append]

theorem machineInv_append_nil (s : SpecSession) (out : List OutEvent)
    (h : machineInv s out) : machineInv s (out ++ []) := by
  rwa [List.append_nil]

theorem machineInv_move (st stNew : SessState) (qi maxQ minA : Nat) (out : List OutEvent)
    (h : machineInv ⟨st, qi, maxQ, minA⟩ out)
    (hnew : ¬ isTerminalState stNew)
    (hz : stNew = .idle ∨ stNew = .priming → qi = 0)
    (hold : ¬ isTerminalState st) :
    machineInv ⟨stNew, qi, maxQ, minA⟩ (out ++ []) := by
  obtain ⟨hqi, hzero, hmax, hterm1, hterm0⟩ := h
  rw [List.append_nil]
  exact ⟨hqi, hz, hmax, fun ht => absurd ht hnew, fun _ => hterm0 hold⟩

theorem machineInv_step (s : SpecSession) (e : SessEvent) (out : List OutEvent)
    (h : machineInv s out) : machineInv (specStep s e).1 (out ++ (specStep s e).2) := by
  obtain ⟨st, qi, maxQ, minA⟩ := s
  have hinv := h
  obtain ⟨hqi, hzero, hmax, hterm1, hterm0⟩ := h
  cases st <;> cases e
  all_goals try exact machineInv_append_nil _ _ ⟨hqi, hzero, hmax, hterm1, hterm0⟩
  case idle.startPriming =>
    exact machineInv_move _ _ _ _ _ _ hinv (by simp [isTerminalState])
      (fun _ => hzero (Or.inl rfl)) (by simp [isTerminalState])
  case priming.contextLoaded q =>
    have h0 : qi = 0 := hzero (Or.inr rfl)
    subst h0
    show machineInv ⟨.askingQuestion, 1, maxQ, minA⟩ (out ++ [.question 1 q])
    refine ⟨?_, by simp, fun h1 => h1, by simp [isTerminalState], ?_⟩
    · rw [questionIndices_append, hqi]
      rfl
    · intro hnt
      rw [terminalEventCount_append, hterm0 (by simp [isTerminalState])]
      rfl
  case priming.contextError =>
    show machineInv ⟨.failed, qi, maxQ, minA⟩ (out ++ [.error])
    refine ⟨?_, by simp, hmax, ?_, ?_⟩
    · rw [questionIndices_append, hqi]
      simp [questionIndices]
    · intro hterm
      rw [terminalEventCount_append, hterm0 (by simp [isTerminalState])]
      rfl
    · intro hnt
      exact absurd (Or.inr rfl) hnt
  case askingQuestion.playbackAck =>
    exact machineInv_move _ _ _ _ _ _ hinv (by simp [isTerminalState])
      (by simp) (by simp [isTerminalState])
  case listeningForAnswer.finalAnswer d =>
    unfold specStep
    dsimp only
    by_cases hd : d < minA
    · rw [if_pos hd]
      exact machineInv_move _ _ _ _ _ _ hinv (by simp [isTerminalState])
        (by simp) (by simp [isTerminalState])
    · rw [if_neg hd]
      exact machineInv_move _ _ _ _ _ _ hinv (by simp [isTerminalState])
        (by simp) (by simp [isTerminalState])
  case listeningForAnswer.endCommand =>
    exact machineInv_move _ _ _ _ _ _ hinv (by simp [isTerminalState])
      (by simp) (by simp [isTerminalState])
  case evaluatingAnswer.evaluated o1 o2 =>
    unfold specStep
    dsimp only
    by_cases hlt : qi < maxQ
    · rw [if_pos hlt]
      dsimp only
      refine ⟨?_, by simp, fun _ => by show qi + 1 ≤ maxQ; omega,
        by simp [isTerminalState], ?_⟩
      · rw [questionIndices_append, hqi, List.range'_1_concat, Nat.add_comm 1 qi]
        rfl
      · intro hnt
        rw [terminalEventCount_append, hterm0 (by simp [isTerminalState])]
        rfl
    · rw [if_neg hlt]
      exact machineInv_move _ _ _ _ _ _ hinv (by simp [isTerminalState])
        (by simp) (by simp [isTerminalState])
  case closing.finalized =>
    show machineInv ⟨.completed, qi, maxQ, minA⟩ (out ++ [.assessment])
    refine ⟨?_, by simp, hmax, ?_, ?_⟩
    · rw [questionIndices_append, hqi]
      simp [questionIndices]
    · intro hterm
      rw [terminalEventCount_append, hterm0 (by simp [isTerminalState])]
      rfl
    · intro hnt
      exact absurd (Or.inl rfl) hnt
  case closing.finalizeError =>
    show machineInv ⟨.failed, qi, maxQ, minA⟩ (out ++ [.error])
    refine ⟨?_, by simp, hmax, ?_, ?_⟩
    · rw [questionIndices_append, hqi]
      simp [questionIndices]
    · intro hterm
      rw [terminalEventCount_append, hterm0 (by simp [isTerminalState])]
      rfl
    · intro hnt
      exact absurd (Or.inr rfl) hnt

theorem machineInv_run (maxQ minA : Nat) (evs : List SessEvent) :
    machineInv (specRun (initSession maxQ minA) evs).1
      (specRun (initSession maxQ minA) evs).2 := by
  have hgen : ∀ (l : List SessEvent) (s : SpecSession) (out : List OutEvent),
      machineInv s out →
      machineInv (l.foldl (fun acc e =>
          ((specStep acc.1 e).1, acc.2 ++ (specStep acc.1 e).2)) (s, out)).1
        (l.foldl (fun acc e =>
          ((specStep acc.1 e).1, acc.2 ++ (specStep acc.1 e).2)) (s, out)).2 := by
    intro l
    induction l with
    | nil => intro s out h; exact h
    | cons e rest ih =>
      intro s out h
      exact ih (specStep s e).1 (out ++ (specStep s e).2) (machineInv_step s e out h)
  have hinit : machineInv (initSession maxQ minA) [] := by
    refine ⟨rfl, fun _ => rfl, fun _ => Nat.zero_le _, ?_, fun _ => rfl⟩
    intro hterm
    rcases hterm with h | h <;> cases h
  exact hgen evs (initSession maxQ minA) [] hinit

theorem maxQuestions_foldl (evs : List SessEvent) :
    ∀ p : SpecSession × List OutEvent,
      ((evs.foldl (fun acc e =>
          ((specStep acc.1 e).1, acc.2 ++ (specStep acc.1 e).2)) p).1).maxQuestions =
        p.1.maxQuestions := by
  induction evs with
  | nil => intro p; rfl
  | cons e rest ih =>
    intro p
    rw [List.foldl_cons, ih]
    exact maxQuestions_step p.1 e

/-- Every event is discarded, with nothing emitted, from a terminal state. -/
theorem terminal_absorbing (s : SpecSession) (hs : isTerminalState s.state) (e : SessEvent) :
    specStep s e = (s, []) := by
  obtain ⟨st, qi, maxQ, minA⟩ := s
  rcases hs with h | h <;> cases h <;> cases e <;> rfl

/-- C7: an event inapplicable to the session's current state is discarded
without changing any state: a further answer submission after the interview
has ended changes nothing on the client — no message appended, no answer
sent, question number and log unchanged — and the session machine discards
every event arriving in a terminal state with nothing emitted. -/
theorem c7_ended_submission_discarded :
    (∀ (s : ClientState) (r : SubmitResponse),
      s.interviewEnded = true → handleSend s r = s) ∧
    (∀ (s : SpecSession) (e : SessEvent),
      isTerminalState s.state → specStep s e = (s, [])) := by
  constructor
  · intro s r h
    unfold handleSend
    rw [if_pos (by rw [h]; simp)]
  · intro s e h
    exact terminal_absorbing s h e

/-- Witness for C7: a late submission on an ended client, and a stray
playback acknowledgement on a completed session, both change nothing. -/
theorem c7_ended_submission_discarded_witness :
    endedClientState.interviewEnded = true ∧
    handleSend endedClientState (.next "q2" 2) = endedClientState ∧
    specStep doneSession .playbackAck = (doneSession, []) :=
  ⟨rfl, c7_ended_submission_discarded.1 _ (.next "q2" 2) rfl,
   c7_ended_submission_discarded.2 doneSession .playbackAck (Or.inl rfl)⟩

/-- C2: in every run of a session from its creation, the indices attached to
the emitted question events are exactly 1, 2, ..., questionIndex — strictly
increasing by exactly one per completed exchange, starting at 1, with no
gaps, no repeats, and no index ever revisited. -/
theorem c2_questionIndices (maxQ minA : Nat) (evs : List SessEvent) :
    questionIndices (specRun (initSession maxQ minA) evs).2 =
      List.range' 1 (specRun (initSession maxQ minA) evs).1.questionIndex :=
  (machineInv_run maxQ minA evs).1

/-- C3: after an answer is evaluated, the session asks question
questionIndex+1 exactly when still under maxQuestions and transitions to
Closing otherwise; consequently a session configured with maxQuestions = N
(N ≥ 1) emits at most N questions in any run, with the policy engine free to
end the session earlier through the end command. -/
theorem c3_maxQuestions :
    (∀ (s : SpecSession) (o1 o2 : PolicyOutcome), s.state = .evaluatingAnswer →
      (s.questionIndex < s.maxQuestions →
        (specStep s (.evaluated o1 o2)).1.state = .askingQuestion ∧
        (specStep s (.evaluated o1 o2)).1.questionIndex = s.questionIndex + 1) ∧
      (¬ s.questionIndex < s.maxQuestions →
        (specStep s (.evaluated o1 o2)).1.state = .closing ∧
        (specStep s (.evaluated o1 o2)).1.questionIndex = s.questionIndex)) ∧
    (∀ (maxQ minA : Nat) (evs : List SessEvent), 1 ≤ maxQ →
      (questionIndices (specRun (initSession maxQ minA) evs).2).length ≤ maxQ) := by
  constructor
  · intro s o1 o2 hst
    obtain ⟨st, qi, maxQ, minA⟩ := s
    have hst2 : st = .evaluatingAnswer := hst
    subst hst2
    unfold specStep
    dsimp only
    constructor
    · intro hlt
      rw [if_pos hlt]
      exact ⟨rfl, rfl⟩
    · intro hge
      rw [if_neg hge]
      exact ⟨rfl, rfl⟩
  · intro maxQ minA evs h1
    have hinv := machineInv_run maxQ minA evs
    have hmq : (specRun (initSession maxQ minA) evs).1.maxQuestions = maxQ :=
      maxQuestions_foldl evs _
    rw [hinv.1, List.length_range']
    have hb := hinv.2.2.1 (by rw [hmq]; exact h1)
    rw [hmq] at hb
    exact hb

/-- Witness for C3 at a session evaluating its first answer out of three. -/
theorem c3_maxQuestions_witness :
    ((specStep evalSession (.evaluated .timeout .timeout)).1.state = .askingQuestion ∧
     (specStep evalSession (.evaluated .timeout .timeout)).1.questionIndex = 2) ∧
    (questionIndices (specRun (initSession 3 4)
        [SessEvent.startPriming, .contextLoaded "q1"]).2).length ≤ 3 :=
  ⟨(c3_maxQuestions.1 evalSession .timeout .timeout rfl).1 (by decide),
   c3_maxQuestions.2 3 4 [SessEvent.startPriming, .contextLoaded "q1"] (by decide)⟩

/-- C4: question generation never fails the session: a successful first call
is used as is, a failed first call is retried exactly once and the retry's
question used if it succeeds, and after a second failure the static scripted
fallback question keyed by the remaining slots is emitted instead; in every
case the evaluated transition advances questionIndex normally and a session
not already Failed never reaches Failed through it. -/
theorem c4_policy_fallback :
    (∀ (q : String) (o2 : PolicyOutcome) (r : Nat), nextQuestionResult (.ok q) o2 r = q) ∧
    (∀ (o1 : PolicyOutcome) (q : String) (r : Nat), (o1 = .timeout ∨ o1 = .err) →
      nextQuestionResult o1 (.ok q) r = q) ∧
    (∀ (o1 o2 : PolicyOutcome) (r : Nat),
      (o1 = .timeout ∨ o1 = .err) → (o2 = .timeout ∨ o2 = .err) →
      nextQuestionResult o1 o2 r = fallbackQuestion r) ∧
    (∀ (s : SpecSession) (o1 o2 : PolicyOutcome), s.state ≠ .failed →
      (specStep s (.evaluated o1 o2)).1.state ≠ .failed) ∧
    (∀ (s : SpecSession) (o1 o2 : PolicyOutcome), s.state = .evaluatingAnswer →
      s.questionIndex < s.maxQuestions →
      (specStep s (.evaluated o1 o2)).1.questionIndex = s.questionIndex + 1 ∧
      (specStep s (.evaluated o1 o2)).2 =
        [.question (s.questionIndex + 1)
          (nextQuestionResult o1 o2 (s.maxQuestions - s.questionIndex))]) := by
  refine ⟨fun q o2 r => rfl, ?_, ?_, ?_, ?_⟩
  · rintro o1 q r (rfl | rfl) <;> rfl
  · rintro o1 o2 r (rfl | rfl) (rfl | rfl) <;> rfl
  · intro s o1 o2 hne
    obtain ⟨st, qi, maxQ, minA⟩ := s
    cases st
    case evaluatingAnswer =>
      unfold specStep
      dsimp only
      split <;> exact fun hh => SessState.noConfusion hh
    case failed => exact absurd rfl hne
    all_goals exact fun hh => SessState.noConfusion hh
  · intro s o1 o2 hst hlt
    obtain ⟨st, qi, maxQ, minA⟩ := s
    have hst2 : st = .evaluatingAnswer := hst
    subst hst2
    unfold specStep
    dsimp only
    rw [if_pos hlt]
    exact ⟨rfl, rfl⟩

/-- Witness for C4: both policy calls time out while evaluating the first of
three answers — the scripted fallback for the two remaining slots is emitted
and the index still advances. -/
theorem c4_policy_fallback_witness :
    nextQuestionResult .timeout .err 2 = fallbackQuestion 2 ∧
    (specStep evalSession (.evaluated .timeout .timeout)).1.questionIndex = 2 ∧
    (specStep evalSession (.evaluated .timeout .timeout)).2 =
      [.question 2 (nextQuestionResult .timeout .timeout 2)] :=
  ⟨c4_policy_fallback.2.2.1 .timeout .err 2 (Or.inl rfl) (Or.inr rfl),
   (c4_policy_fallback.2.2.2.2 evalSession .timeout .timeout rfl (by decide)).1,
   (c4_policy_fallback.2.2.2.2 evalSession .timeout .timeout rfl (by decide)).2⟩

/-- C5: a session trace never holds two terminal events; a terminal state
has been reached exactly when one assessment-or-error event was emitted; and
the absorbing states — those from which every event is discarded with
nothing emitted — are exactly the terminal outcomes Completed and Failed,
so the client never sees a partial or ambiguous terminal state. -/
theorem c5_single_terminal_event :
    (∀ (maxQ minA : Nat) (evs : List SessEvent),
      terminalEventCount (specRun (initSession maxQ minA) evs).2 ≤ 1) ∧
    (∀ (maxQ minA : Nat) (evs : List SessEvent),
      (isTerminalState (specRun (initSession maxQ minA) evs).1.state ↔
        terminalEventCount (specRun (initSession maxQ minA) evs).2 = 1)) ∧
    (∀ s : SpecSession, (∀ e, specStep s e = (s, [])) ↔ isTerminalState s.state) := by
  refine ⟨?_, ?_, ?_⟩
  · intro maxQ minA evs
    have hinv := machineInv_run maxQ minA evs
    by_cases ht : isTerminalState (specRun (initSession maxQ minA) evs).1.state
    · rw [hinv.2.2.2.1 ht]
    · rw [hinv.2.2.2.2 ht]
      omega
  · intro maxQ minA evs
    have hinv := machineInv_run maxQ minA evs
    constructor
    · exact hinv.2.2.2.1
    · intro hcount
      by_cases ht : isTerminalState (specRun (initSession maxQ minA) evs).1.state
      · exact ht
      · rw [hinv.2.2.2.2 ht] at hcount
        cases hcount
  · intro s
    constructor
    · intro hall
      obtain ⟨st, qi, maxQ, minA⟩ := s
      cases st
      case completed => exact Or.inl rfl
      case failed => exact Or.inr rfl
      case idle =>
        have h := congrArg (fun p => p.1.state) (hall .startPriming)
        exact absurd h (fun hh => SessState.noConfusion hh)
      case priming =>
        have h := congrArg (fun p => p.1.state) (hall .contextError)
        exact absurd h (fun hh => SessState.noConfusion hh)
      case askingQuestion =>
        have h := congrArg (fun p => p.1.state) (hall .playbackAck)
        exact absurd h (fun hh => SessState.noConfusion hh)
      case listeningForAnswer =>
        have h := congrArg (fun p => p.1.state) (hall .endCommand)
        exact absurd h (fun hh => SessState.noConfusion hh)
      case evaluatingAnswer =>
        exfalso
        have h := congrArg (fun p => p.1.state)
          (hall (.evaluated .timeout .timeout))
        unfold specStep at h
        dsimp only at h
        by_cases hlt : qi < maxQ
        · rw [if_pos hlt] at h
          exact SessState.noConfusion h
        · rw [if_neg hlt] at h
          exact SessState.noConfusion h
      case closing =>
        have h := congrArg (fun p => p.1.state) (hall .finalized)
        exact absurd h (fun hh => SessState.noConfusion hh)
    · intro hterm e
      exact terminal_absorbing s hterm e

/-- C6: a submission fails with OutOfOrder exactly when seq is not the
expected next sequence value for the session, and a rejected submission
leaves the ingestion state — expected-next counter included — unchanged. -/
theorem c6_outOfOrder :
    (∀ (st : IngestState) (seq : Nat) (bytes : List Nat),
      (submit st seq bytes).1 = .outOfOrder ↔ seq ≠ st.expectedSeq) ∧
    (∀ (st : IngestState) (seq : Nat) (bytes : List Nat),
      seq ≠ st.expectedSeq →
      (submit st seq bytes).2 = st ∧
      (submit st seq bytes).2.expectedSeq = st.expectedSeq) := by
  constructor
  · intro st seq bytes
    unfold submit
    by_cases h : seq = st.expectedSeq
    · rw [if_pos h]
      simp [h]
    · rw [if_neg h]
      simp [h]
  · intro st seq bytes h
    unfold submit
    rw [if_neg h]
    exact ⟨rfl, rfl⟩

/-- Witness for C6: submitting seq 7 when 3 is expected is rejected and
leaves the buffer untouched. -/
theorem c6_outOfOrder_witness :
    (7 : Nat) ≠ ({ expectedSeq := 3, forwarded := [] } : IngestState).expectedSeq ∧
    (submit { expectedSeq := 3, forwarded := [] } 7 [0, 1]).2 =
      { expectedSeq := 3, forwarded := [] } :=
  ⟨by decide,
   (c6_outOfOrder.2 { expectedSeq := 3, forwarded := [] } 7 [0, 1] (by decide)).1⟩

end VoiceInterview
